import Mathlib

/-!
# Verification of the cola-plugin-action core logic

Shallow embedding, in Lean 4, of the manifest-validation, archive-naming,
packaging, publishing and documentation-retention logic of the
`cola-plugin-action` repository, together with proofs about it.

Each definition is translated from a concrete source location:

* `sanitize_name`, `validate_semver`, `validate_command_name` and the
  manifest validation pass: `scripts/common.sh` and
  `scripts/validate-manifest.sh`;
* `parsePluginArchiveName` and the archive file name construction:
  `src/utils/archive.ts` and `src/package.ts`;
* `packagePluginsRun`: the `packagePlugins` loop of `src/package.ts`;
* the OCI and GitHub-release publish loops: `src/oci.ts` and the release
  module (`createPluginReleases`);
* the documentation retention pipeline: `docs.ts`
  (`processPluginVersions`, `cleanupOldVersions`) and
  `src/utils/docs-generator.ts` (`generateVersionIndexPage`).

Strings are modelled by Lean `String` / `List Char`; JavaScript regular
expressions are modelled by equivalent deterministic matchers noted at
each definition.
-/

namespace Cola

/-! ## Character classes used by the shell scripts -/

/-- ASCII lower-casing, the effect of `tr '[:upper:]' '[:lower:]'`
(`scripts/common.sh`, `sanitize_name`): characters `A`–`Z` map to their
lower-case forms, all other characters are unchanged. -/
def asciiLower (c : Char) : Char :=
  if 'A' ≤ c ∧ c ≤ 'Z' then Char.ofNat (c.toNat + 32) else c

/-- The effect of `tr ' ' '-'` (`scripts/common.sh`, `sanitize_name`):
the space character maps to a hyphen, everything else is unchanged.
Note this is the space character only, not general whitespace. -/
def spaceToHyphen (c : Char) : Char :=
  if c = ' ' then '-' else c

/-- The character class `[a-z0-9-]` kept by `sed 's/[^a-z0-9-]//g'` in
`sanitize_name` and required by `validate_command_name`
(`scripts/common.sh`). -/
def allowedChar (c : Char) : Bool :=
  ('a' ≤ c && c ≤ 'z') || ('0' ≤ c && c ≤ '9') || c = '-'

/-- Whether the bash builtin `echo` treats its single argument as an
option word instead of printing it: a word matching `-[neE]+` (such as
`-n` or `-e`) is consumed, and with no operands left `echo` prints at
most a newline, which the surrounding command substitution strips. -/
def echoOptionLike (s : String) : Bool :=
  match s.toList with
  | '-' :: rest =>
    !rest.isEmpty && rest.all (fun c => c = 'n' || c = 'e' || c = 'E')
  | _ => false

/-- `sed 's/[^a-z0-9-]//g'` as a character-stream function: sed works
line by line, deleting the characters outside `[a-z0-9-]` *within* each
line; the newline separators between lines are never part of the
pattern space and pass through unchanged. -/
def sedFilterStream : List Char → List Char
  | [] => []
  | c :: t =>
    if c = '\n' then '\n' :: sedFilterStream t
    else if allowedChar c then c :: sedFilterStream t
    else sedFilterStream t

/-- Removal of trailing newlines, the effect of the `$(...)` command
substitution through which every caller reads `sanitize_name`'s
output. -/
def stripTrailingNewlines (l : List Char) : List Char :=
  (l.reverse.dropWhile (fun c => c = '\n')).reverse

/-- `sanitize_name` from `scripts/common.sh`:
`echo "$1" | tr '[:upper:]' '[:lower:]' | tr ' ' '-' | sed 's/[^a-z0-9-]//g'`,
read through command substitution.  `echo` consumes an option-like
argument (`-[neE]+`) and otherwise prints the argument plus a trailing
newline; the two `tr` stages are character-wise (neither touches a
newline); `sed` deletes disallowed characters per line, preserving
embedded newlines; the command substitution strips trailing
newlines. -/
def sanitize_name (s : String) : String :=
  if echoOptionLike s then ""
  else
    String.mk (stripTrailingNewlines
      (sedFilterStream (((s.toList ++ ['\n']).map asciiLower).map spaceToHyphen)))

/-- The behaviour the specification ascribes to `sanitizeName`: lower-case,
replace every *whitespace* character with a hyphen, then strip every
character not in `[a-z0-9-]`.  This is the spec-side reading of the claim,
used only to compare against `sanitize_name`. -/
def sanitizeNameSpecWhitespace (s : String) : String :=
  String.mk
    (((s.toList.map asciiLower).map (fun c => if c.isWhitespace then '-' else c)).filter
      allowedChar)

/-- Single-pass description of the `tr | tr | sed` stages: per
character, lower-case it; a space becomes a hyphen; a newline survives
(sed is line-based); any other character survives only if it is already
in `[a-z0-9-]`. -/
def sanitizeCharwise : List Char → List Char
  | [] => []
  | c :: t =>
    let l := asciiLower c
    if l = ' ' then '-' :: sanitizeCharwise t
    else if l = '\n' then '\n' :: sanitizeCharwise t
    else if allowedChar l then l :: sanitizeCharwise t
    else sanitizeCharwise t

/-! ## Semantic-version and command-name validation (`scripts/common.sh`) -/

/-- Decimal digit test, the `[0-9]` class of the bash regexes. -/
def isDigitChar (c : Char) : Bool :=
  '0' ≤ c && c ≤ '9'

/-- The character class `[a-zA-Z0-9._-]` of `validate_semver`'s
pre-release and build segments (`scripts/common.sh`). -/
def semverTailChar (c : Char) : Bool :=
  ('a' ≤ c && c ≤ 'z') || ('A' ≤ c && c ≤ 'Z') || ('0' ≤ c && c ≤ '9') ||
    c = '.' || c = '_' || c = '-'

/-- Matcher for the tail of the `validate_semver` regex after the
`MAJOR.MINOR.PATCH` core: `(-[a-zA-Z0-9._-]+)?(\+[a-zA-Z0-9._-]+)?$`.
Because the class `[a-zA-Z0-9._-]` does not contain `+`, the backtracking
regex semantics coincide with this deterministic matcher: a pre-release
run extends maximally and must stop at end of string or at the `+` that
begins the build segment. -/
def semverTail (l : List Char) : Bool :=
  match l with
  | [] => true
  | '+' :: b => !b.isEmpty && b.all semverTailChar
  | '-' :: t =>
    let pre := t.takeWhile semverTailChar
    let rest := t.dropWhile semverTailChar
    !pre.isEmpty &&
      (match rest with
       | [] => true
       | '+' :: b => !b.isEmpty && b.all semverTailChar
       | _ => false)
  | _ => false

/-- The `\.[0-9]+(-...)?(\+...)?$` part of the `validate_semver` regex
after the `MAJOR.MINOR` components: a dot, a nonempty digit run, then
the optional pre-release/build tail. -/
def semverDot2 : List Char → Bool
  | c :: r2 =>
    c = '.' && !(r2.takeWhile isDigitChar).isEmpty &&
      semverTail (r2.dropWhile isDigitChar)
  | [] => false

/-- The `\.[0-9]+\.[0-9]+...$` part of the `validate_semver` regex
after the `MAJOR` component. -/
def semverDot1 : List Char → Bool
  | c :: r1 =>
    c = '.' && !(r1.takeWhile isDigitChar).isEmpty &&
      semverDot2 (r1.dropWhile isDigitChar)
  | [] => false

/-- `validate_semver` from `scripts/common.sh`: the bash test
`[[ $version =~ ^[0-9]+\.[0-9]+\.[0-9]+(-[a-zA-Z0-9._-]+)?(\+[a-zA-Z0-9._-]+)?$ ]]`.
The three numeric components are parsed with maximal munch, which agrees
with the backtracking regex because a shortened digit run would leave a
digit where only `.`, `-`, `+` or the end may follow. -/
def validate_semver (s : String) : Bool :=
  !(s.toList.takeWhile isDigitChar).isEmpty &&
    semverDot1 (s.toList.dropWhile isDigitChar)

/-- `validate_command_name` from `scripts/common.sh`:
`[[ $cmd_name =~ ^[a-z0-9-]+$ ]]`. -/
def validate_command_name (s : String) : Bool :=
  !s.toList.isEmpty && s.toList.all allowedChar

/-! ## Manifest validation (`scripts/validate-manifest.sh`)

The script reads manifest fields through `get_manifest_field`, which
yields the empty string for a missing field (`yq eval '.field // ""'`)
and `0` for a missing or empty `cmds` array.  A `ShellManifest` records
exactly those observations. -/

/-- The view of one plugin manifest as observed by
`scripts/validate-manifest.sh` through `get_manifest_field`: a missing
`pkgName`, `version`, first-command `name`, `type` or `executable` shows
up as the empty string, and a missing or empty `cmds` array as
`cmdsCount = 0`. -/
structure ShellManifest where
  pkgName : String
  version : String
  cmdsCount : Nat
  commandName : String
  commandType : String
  executable : String
  hasReadme : Bool
deriving Repr, DecidableEq

/-- The errors logged for the `pkgName` and `version` iterations of the
required-fields loop of `scripts/validate-manifest.sh` (lines 70–91):
a missing field logs `Missing required field: <field>`, and a present
`version` that fails `validate_semver` logs
`Invalid version format: <value>`. -/
def requiredFieldErrors (m : ShellManifest) : List String :=
  (if m.pkgName = "" then ["Missing required field: pkgName"] else []) ++
    (if m.version = "" then ["Missing required field: version"]
     else if validate_semver m.version then []
     else ["Invalid version format: " ++ m.version])

/-- The errors logged by the commands-array section of
`scripts/validate-manifest.sh` (lines 93–139): empty `cmds`, then for the
first command its `name` (present and `^[a-z0-9-]+$`), its `type`
(present and one of `executable`, `group`, `system` — the script's enum),
and the `executable` field required when `type` is `executable`. -/
def commandErrors (m : ShellManifest) : List String :=
  if m.cmdsCount = 0 then
    ["Missing or empty 'cmds' array - at least one command required"]
  else
    (if m.commandName = "" then ["First command missing 'name' field"]
     else if validate_command_name m.commandName then []
     else ["Invalid command name: " ++ m.commandName]) ++
    (if m.commandType = "" then ["First command missing 'type' field"]
     else if m.commandType = "executable" ∨ m.commandType = "group" ∨
         m.commandType = "system" then []
     else ["Invalid command type: " ++ m.commandType]) ++
    (if m.commandType = "executable" ∧ m.executable = "" then
      ["Command type 'executable' requires 'executable' field"]
     else [])

/-- All errors of one plugin's validation pass in
`scripts/validate-manifest.sh`, in the order the script logs them.  Every
check runs on every call; nothing short-circuits an earlier error. -/
def scriptErrors (m : ShellManifest) : List String :=
  requiredFieldErrors m ++ commandErrors m

/-- The warnings of the validation pass: a missing `README.md` is only a
recommendation (`scripts/validate-manifest.sh`, lines 141–146). -/
def scriptWarnings (m : ShellManifest) : List String :=
  if m.hasReadme then [] else ["No README.md found (recommended)"]

/-- Whether the script counts the plugin as valid: `has_errors` stays
`false` exactly when no error was logged. -/
def scriptValid (m : ShellManifest) : Bool :=
  (scriptErrors m).isEmpty

/-! ## Archive naming (`src/utils/archive.ts`, `src/package.ts`) -/

/-- The archive formats of `src/utils/archive.ts` (`ArchiveFormat`). -/
inductive ArchiveFormat where
  | targz
  | zip
deriving Repr, DecidableEq

/-- The archive file name built by `packagePlugins`
(`src/package.ts`, lines 65–68):
`` `${manifest.pkgName}-${manifest.version}${extension}` `` with
extension `.tar.gz` or `.zip`. -/
def buildArchiveFilename (name version : String) (fmt : ArchiveFormat) : String :=
  name ++ "-" ++ version ++ (match fmt with | .targz => ".tar.gz" | .zip => ".zip")

/-- The characters of the `.tar.gz` extension, the string pattern of the
`filename.replace('.tar.gz', '')` call in `parsePluginArchiveName`. -/
def tarGzExt : List Char :=
  ['.', 't', 'a', 'r', '.', 'g', 'z']

/-- Removal of the first occurrence of `sub` from `l`, the semantics of
the JavaScript `filename.replace('.tar.gz', '')` with a string pattern
(`src/utils/archive.ts`, line 170): only the leftmost occurrence is
removed, and a string without an occurrence is returned unchanged. -/
def removeFirstSub (sub : List Char) : List Char → List Char
  | [] => []
  | c :: t =>
    if sub.isPrefixOf (c :: t) then (c :: t).drop sub.length
    else c :: removeFirstSub sub t

/-- Continuation of `isVersionish` after the second dot: the regex
still requires `\d+` (at least one digit), then `.*` matches any
remainder. -/
def versNumTail : List Char → Bool
  | c :: r2 => c = '.' && isDigitChar (r2.headD ' ')
  | [] => false

/-- Continuation of `isVersionish` after the first dot: `\d+\.\d+.*`. -/
def versMidTail (r1 : List Char) : Bool :=
  !(r1.takeWhile isDigitChar).isEmpty && versNumTail (r1.dropWhile isDigitChar)

/-- Whether `l` matches `\d+\.\d+\.\d+.*` — the shape required of the
second capture group of the regex `^(.+)-(\d+\.\d+\.\d+.*)$` in
`parsePluginArchiveName` (`src/utils/archive.ts`, line 173).  Maximal
munch on the digit runs agrees with the backtracking regex because a
shortened digit run would leave a digit where `\.` must match. -/
def versHeadTail : List Char → Bool
  | c :: r1 => c = '.' && versMidTail r1
  | [] => false

def isVersionish (l : List Char) : Bool :=
  !(l.takeWhile isDigitChar).isEmpty && versHeadTail (l.dropWhile isDigitChar)

/-- Largest `i < k` with `p i`, scanning downward.  Used to express the
greedy split of the regex `^(.+)-(\d+\.\d+\.\d+.*)$`: the greedy `(.+)`
takes the longest prefix, i.e. the split happens at the right-most
hyphen whose suffix matches `\d+\.\d+\.\d+.*`. -/
def findLargest (p : Nat → Bool) : Nat → Option Nat
  | 0 => none
  | k + 1 => if p k then some k else findLargest p k

/-- A split position for the regex `^(.+)-(\d+\.\d+\.\d+.*)$` on `l`:
index `i` holds a hyphen, has a nonempty prefix before it (`(.+)`), and
the suffix after it matches `\d+\.\d+\.\d+.*`. -/
def archSplitAt (l : List Char) (i : Nat) : Bool :=
  decide (1 ≤ i) && (l.getD i ' ' == '-') && isVersionish (l.drop (i + 1))

/-- `parsePluginArchiveName` from `src/utils/archive.ts` (lines 169–183):
strip the first occurrence of `.tar.gz` (no other extension is
stripped), then match `^(.+)-(\d+\.\d+\.\d+.*)$`, the greedy first group
selecting the right-most viable hyphen. -/
def parsePluginArchiveName (filename : String) : Option (String × String) :=
  let b := removeFirstSub tarGzExt filename.toList
  match findLargest (archSplitAt b) b.length with
  | some i => some (String.mk (b.take i), String.mk (b.drop (i + 1)))
  | none => none

/-- Whether some hyphen inside `l` is followed by a `\d+\.\d+\.\d+`
shaped segment.  Such a hyphen inside the *version* shifts the greedy
split of `^(.+)-(\d+\.\d+\.\d+.*)$` to the right of the name/version
junction, so the round-trip theorem excludes it (and the counterexample
shows it must). -/
def noHyphenVersionish : List Char → Bool
  | [] => true
  | c :: t => !(c = '-' && isVersionish t) && noHyphenVersionish t

/-- Whether `.tar.gz` occurs in `l ++ ".tar.gz"` at a position starting
inside `l` — i.e. before the final extension.  The first-occurrence
`replace('.tar.gz', '')` strips such an early occurrence instead of the
extension, so the round-trip theorem excludes versions containing one
(and the counterexample shows it must). -/
def tarGzOccursEarly : List Char → Bool
  | [] => false
  | c :: t => tarGzExt.isPrefixOf ((c :: t) ++ tarGzExt) || tarGzOccursEarly t

/-! ## The packaging run (`src/package.ts`, `packagePlugins`) -/

/-- A packaged artifact as assembled by `packagePlugins`
(`src/package.ts`, lines 84–90). -/
structure PackagedPlugin where
  name : String
  version : String
  archivePath : String
  checksum : String
  size : Nat
deriving Repr, DecidableEq

/-- The body of the `packagePlugins` loop (`src/package.ts`, lines
53–99) on a list of discovered plugin directories.  Each directory is
summarised by its name and the outcome of reading its manifest and
building its archive: `.ok` carries the resulting artifact, `.error`
carries the message of the exception raised by `readManifest` or
`createArchive`.  The `catch` block of the loop logs and **rethrows**
(`throw error;`, line 95), so the first failing directory ends the
run. -/
def packageLoop : List (String × Except String PackagedPlugin) →
    Except String (List PackagedPlugin)
  | [] => .ok []
  | (_, .error e) :: _ => .error e
  | (_, .ok p) :: rest => (packageLoop rest).map (p :: ·)

/-- The directory names the `packagePlugins` loop actually enters before
it returns: the loop body runs for each directory until the first
failure rethrows. -/
def packageLoopProcessed : List (String × Except String PackagedPlugin) → List String
  | [] => []
  | (d, .error _) :: _ => [d]
  | (d, .ok _) :: rest => d :: packageLoopProcessed rest

/-- `packagePlugins` from `src/package.ts`: after directory discovery,
an empty list of plugin directories raises
`No plugins found in <pluginsDirectory>` (lines 44–46); otherwise the
packaging loop runs. -/
def packagePluginsRun (pluginsDirectory : String)
    (dirs : List (String × Except String PackagedPlugin)) :
    Except String (List PackagedPlugin) :=
  if dirs.isEmpty then .error ("No plugins found in " ++ pluginsDirectory)
  else packageLoop dirs

/-! ## OCI publishing (`src/oci.ts`, `pushToOCI`) -/

/-- One package as seen by the OCI push loop: the manifest fields it
reads (`src/oci.ts`, lines 59–63). -/
structure OCIPkg where
  pkgName : String
  version : String
deriving Repr, DecidableEq

/-- The registry state: the set of `(reference, tag)` pairs that exist.
The loop only observes it through the existence check and extends it by
pushing, so a list of pairs suffices. -/
abbrev OCIState := List (String × String)

/-- The existence check `checkOCITagExists` as a query against the
modelled registry state (`src/oci.ts`, line 70). -/
def ociTagExists (st : OCIState) (ref tag : String) : Bool :=
  decide ((ref, tag) ∈ st)

/-- Effect on the registry of `orasPush` followed by `orasTag ... latest`
(`src/oci.ts`, lines 100–103): the content becomes available under the
version tag and under `latest`. -/
def ociPush (st : OCIState) (ref tag : String) : OCIState :=
  (ref, "latest") :: (ref, tag) :: st

/-- The per-package loop of `pushToOCI` (`src/oci.ts`, lines 52–121):
for each package, compute `<registry>/<sanitized name>`, skip (counting
`skippedCount`) when the version tag exists, otherwise push and tag
`latest` (counting `pushedCount`).  Returns the final registry state and
the two counters. -/
def ociLoop (registry : String) : OCIState → List OCIPkg → OCIState × Nat × Nat
  | st, [] => (st, 0, 0)
  | st, p :: rest =>
    let ref := registry ++ "/" ++ sanitize_name p.pkgName
    if ociTagExists st ref p.version then
      let r := ociLoop registry st rest
      (r.1, r.2.1, r.2.2 + 1)
    else
      let r := ociLoop registry (ociPush st ref p.version) rest
      (r.1, r.2.1 + 1, r.2.2)

/-- `pushToOCI` outcome (`src/oci.ts`): an empty package directory list
raises `No packages found` (lines 42–44); after the loop, a run that
neither pushed nor skipped raises `No packages were processed`
(lines 132–134); otherwise the counters are returned. -/
def pushToOCIRun (registry : String) (st : OCIState) (pkgs : List OCIPkg) :
    Except String (OCIState × Nat × Nat) :=
  if pkgs.isEmpty then .error "No packages found"
  else
    let r := ociLoop registry st pkgs
    if r.2.1 = 0 ∧ r.2.2 = 0 then .error "No packages were processed"
    else .ok r

/-! ## GitHub release publishing (`createPluginReleases`) -/

/-- One package as seen by the release loop. -/
structure RelPkg where
  name : String
  version : String
deriving Repr, DecidableEq

/-- The per-package loop of `createPluginReleases` (release module,
lines 46–115): tag name `<name>-<version>`; an existing tag is skipped
when `forceRelease` is off, deleted and recreated when it is on; a
missing tag is created together with its release.  The state is the set
of existing tags; the result lists mirror `createdReleases`,
`skippedReleases` and `deletedReleases`. -/
def releaseLoop (force : Bool) :
    List String → List RelPkg → List String × List String × List String × List String
  | tags, [] => (tags, [], [], [])
  | tags, p :: rest =>
    let tagName := p.name ++ "-" ++ p.version
    if tagName ∈ tags then
      if force then
        let r := releaseLoop force (tagName :: (tags.erase tagName)) rest
        (r.1, tagName :: r.2.1, r.2.2.1, tagName :: r.2.2.2)
      else
        let r := releaseLoop force tags rest
        (r.1, r.2.1, tagName :: r.2.2.1, r.2.2.2)
    else
      let r := releaseLoop force (tagName :: tags) rest
      (r.1, tagName :: r.2.1, r.2.2.1, r.2.2.2)

/-! ## The OCI existence check under a failing query (`src/oci.ts`,
`checkOCITagExists`) -/

/-- Outcome of the `oras manifest fetch` invocation inside
`checkOCITagExists`: the command either returns an exit code (run with
`ignoreReturnCode: true`) or the execution itself throws. -/
inductive ExecOutcome where
  | exits (code : Int)
  | throws
deriving Repr, DecidableEq

/-- `checkOCITagExists` from `src/oci.ts` (lines 204–229): the tag
exists exactly when the fetch exited with code `0`; the `catch` block
turns a thrown error into `false`. -/
def checkOCITagExists (r : ExecOutcome) : Bool :=
  match r with
  | .exits code => code == 0
  | .throws => false

/-- The skip decision of `pushToOCI` (lines 69–77) as a function of the
fetch outcome: the package is skipped exactly when the existence check
returns `true`; otherwise the loop proceeds to push. -/
def ociSkipsPackage (r : ExecOutcome) : Bool :=
  checkOCITagExists r

/-! ## Semantic-version ordering and documentation retention
(`docs.ts`, `src/utils/docs-generator.ts`)

The production documentation pipeline sorts each plugin's versions with
`semver.rcompare` (newest first), truncates to the configured keep-count
(`cleanupOldVersions`), and renders a version-index entry per retained
version with the entry at index 0 badged `Latest`
(`generateVersionIndexPage`).  The `semver` package is an external
collaborator; its precedence relation (SemVer 2.0.0 §11, which
`semver.compare`/`rcompare` implements) is embedded below. -/

/-- A pre-release identifier: numeric identifiers compare numerically
and are lower than alphanumeric ones, which compare lexically. -/
inductive PreId where
  | num (n : Nat)
  | str (s : String)
deriving Repr, DecidableEq

/-- Order key of a pre-release identifier: numeric before alphanumeric
(`Sum.Lex`), numerics by value, alphanumerics by string order. -/
def PreId.key : PreId → Nat ⊕ₗ String
  | .num n => toLex (Sum.inl n)
  | .str s => toLex (Sum.inr s)

/-- A parsed semantic version: `major.minor.patch` with an optional
pre-release identifier list (empty = a release). -/
structure SemVer where
  major : Nat
  minor : Nat
  patch : Nat
  pre : List PreId
deriving Repr, DecidableEq

/-- Order key of the pre-release part: a release (empty list) is higher
than any pre-release of the same `major.minor.patch`; pre-release lists
compare lexicographically with a proper prefix lower. -/
def preKey : List PreId → Bool ×ₗ List (Nat ⊕ₗ String)
  | [] => toLex (true, [])
  | l => toLex (false, l.map PreId.key)

/-- Full order key: lexicographic on major, minor, patch, then the
pre-release key.  SemVer precedence is exactly the order this key
inherits from the lexicographic product. -/
def SemVer.key (v : SemVer) :
    Nat ×ₗ Nat ×ₗ Nat ×ₗ Bool ×ₗ List (Nat ⊕ₗ String) :=
  toLex (v.major, toLex (v.minor, toLex (v.patch, preKey v.pre)))

/-- Strict SemVer precedence: `a` has lower precedence than `b`. -/
def semverLT (a b : SemVer) : Prop :=
  a.key < b.key

/-- Non-strict descending comparator, the order in which
`docs.sort((a, b) => semver.rcompare(a.version, b.version))` leaves the
list: `a` before `b` when `a` is at least `b`. -/
def semverGE (a b : SemVer) : Prop :=
  b.key ≤ a.key

instance : DecidableRel semverLT := fun a b =>
  inferInstanceAs (Decidable (a.key < b.key))

instance : DecidableRel semverGE := fun a b =>
  inferInstanceAs (Decidable (b.key ≤ a.key))

/-- The `docs.sort((a, b) => semver.rcompare(a.version, b.version))`
step of `processPluginVersions` (`docs.ts`, line 239): the list is left
in descending SemVer order.  For distinct versions the sorted
permutation is unique, so any correct comparison sort — modelled here by
insertion sort — is the faithful embedding. -/
def sortVersionsDesc (l : List SemVer) : List SemVer :=
  l.insertionSort semverGE

/-- `cleanupOldVersions` (`docs.ts`, lines 244–255) on one plugin's
sorted version list: `docs.splice(keepVersions)` drops everything from
index `keepVersions` on when the list is longer than that. -/
def cleanupOldVersions (docs : List SemVer) (keepVersions : Nat) : List SemVer :=
  if keepVersions < docs.length then docs.take keepVersions else docs

/-- The version-index entries produced by `generateVersionIndexPage`
(`src/utils/docs-generator.ts`, lines 199–213): one item per version in
list order, with `isLatest = index === 0` controlling the `Latest`
badge. -/
def versionIndexItems (versions : List SemVer) : List (SemVer × Bool) :=
  versions.enum.map (fun p => (p.2, p.1 == 0))

/-- The retained version list for one plugin: descending sort
(`processPluginVersions`) followed by the retention truncation
(`cleanupOldVersions`) — the composition the documentation run applies
before rendering. -/
def retainedVersions (l : List SemVer) (keepVersions : Nat) : List SemVer :=
  cleanupOldVersions (sortVersionsDesc l) keepVersions

/-- Totality of the descending comparator, needed for the sortedness of
the sort step. -/
instance : IsTotal SemVer semverGE :=
  ⟨fun a b => (le_total b.key a.key).imp id id⟩

/-- Transitivity of the descending comparator. -/
instance : IsTrans SemVer semverGE :=
  ⟨fun _ _ _ hab hbc => le_trans hbc hab⟩

/-! ## Helper lemmas on strings -/

theorem str_append_ne_append (p q : String) {i : Nat} {a b : Char}
    (ha : p.data[i]? = some a) (hb : q.data[i]? = some b) (hab : a ≠ b)
    (x y : String) : p ++ x ≠ q ++ y := by
  intro h
  have hip : i < p.data.length :=
    (List.getElem?_eq_some.mp ha).1
  have hiq : i < q.data.length :=
    (List.getElem?_eq_some.mp hb).1
  have h2 := congrArg (fun s : String => s.data[i]?) h
  simp only [String.data_append] at h2
  rw [List.getElem?_append_left hip, List.getElem?_append_left hiq, ha, hb] at h2
  exact hab (Option.some.inj h2)

theorem str_append_ne_fixed (p q : String) {i : Nat} {a b : Char}
    (ha : p.data[i]? = some a) (hb : q.data[i]? = some b) (hab : a ≠ b)
    (x : String) : p ++ x ≠ q := by
  intro h
  have hip : i < p.data.length :=
    (List.getElem?_eq_some.mp ha).1
  have h2 := congrArg (fun s : String => s.data[i]?) h
  simp only [String.data_append] at h2
  rw [List.getElem?_append_left hip, ha, hb] at h2
  exact hab (Option.some.inj h2)

/-! ## Results for the name-sanitization claim -/

-- List-level identity between the tr | tr | sed stages and the
-- single-pass description.
theorem sanitize_pipeline_eq_charwise (l : List Char) :
    sedFilterStream ((l.map asciiLower).map spaceToHyphen) = sanitizeCharwise l := by
  induction l with
  | nil => rfl
  | cons c t ih =>
    simp only [List.map_cons, sedFilterStream, sanitizeCharwise]
    by_cases hsp : asciiLower c = ' '
    · have h1 : spaceToHyphen (asciiLower c) = '-' := by rw [hsp]; rfl
      rw [h1, if_neg (by decide), if_pos (by decide), if_pos hsp, ih]
    · have h1 : spaceToHyphen (asciiLower c) = asciiLower c := by
        simp [spaceToHyphen, hsp]
      rw [h1, if_neg hsp]
      by_cases hnl : asciiLower c = '\n'
      · rw [if_pos hnl, if_pos hnl, ih]
      · rw [if_neg hnl, if_neg hnl]
        by_cases hal : allowedChar (asciiLower c) = true
        · rw [if_pos hal, if_pos hal, ih]
        · rw [if_neg hal, if_neg hal, ih]

-- The single-pass description distributes over append.
theorem sanitizeCharwise_append (x y : List Char) :
    sanitizeCharwise (x ++ y) = sanitizeCharwise x ++ sanitizeCharwise y := by
  induction x with
  | nil => rfl
  | cons c t ih =>
    simp only [List.cons_append, sanitizeCharwise, List.append_eq]
    by_cases hsp : asciiLower c = ' '
    · rw [if_pos hsp, if_pos hsp, ih]
      rfl
    · rw [if_neg hsp, if_neg hsp]
      by_cases hnl : asciiLower c = '\n'
      · rw [if_pos hnl, if_pos hnl, ih]
        rfl
      · rw [if_neg hnl, if_neg hnl]
        by_cases hal : allowedChar (asciiLower c) = true
        · rw [if_pos hal, if_pos hal, ih]
          rfl
        · rw [if_neg hal, if_neg hal, ih]

-- Stripping trailing newlines absorbs a trailing newline.
theorem stripTrailingNewlines_append_newline (l : List Char) :
    stripTrailingNewlines (l ++ ['\n']) = stripTrailingNewlines l := by
  unfold stripTrailingNewlines
  rw [List.reverse_append]
  simp [List.dropWhile_cons]

-- Every character of a `sedFilterStream` output is allowed or a
-- newline.
theorem mem_sedFilterStream {c : Char} :
    ∀ {l : List Char}, c ∈ sedFilterStream l → allowedChar c = true ∨ c = '\n' := by
  intro l
  induction l with
  | nil => intro h; cases h
  | cons d t ih =>
    intro h
    rw [sedFilterStream] at h
    by_cases hnl : d = '\n'
    · rw [if_pos hnl] at h
      rcases List.mem_cons.mp h with rfl | h2
      · exact Or.inr rfl
      · exact ih h2
    · rw [if_neg hnl] at h
      by_cases hal : allowedChar d = true
      · rw [if_pos hal] at h
        rcases List.mem_cons.mp h with rfl | h2
        · exact Or.inl hal
        · exact ih h2
      · rw [if_neg hal] at h
        exact ih h

-- Members of the trailing-newline strip are members of the original.
theorem mem_stripTrailingNewlines {c : Char} {l : List Char}
    (h : c ∈ stripTrailingNewlines l) : c ∈ l := by
  unfold stripTrailingNewlines at h
  rw [List.mem_reverse] at h
  have h2 := (List.dropWhile_sublist (l := l.reverse)
    (p := fun c => c = '\n')).subset h
  rwa [List.mem_reverse] at h2

/-- C8 (counterexample): on a tab character the shell `sanitize_name`
differs from the claimed description.  `tr ' ' '-'` translates only the
space character, so a tab is not turned into a hyphen but deleted by the
final `sed`: `sanitize_name "a\tb" = "ab"`, while the claim's
whitespace-replacing reading yields `"a-b"`. -/
theorem c8_sanitize_whitespace_counterexample :
    sanitize_name "a\tb" = "ab" ∧ sanitizeNameSpecWhitespace "a\tb" = "a-b" ∧
      sanitize_name "a\tb" ≠ sanitizeNameSpecWhitespace "a\tb" := by
  refine ⟨by decide, by decide, by decide⟩

/-- C8 (amended): for inputs that `echo` does not consume as an option
word, `sanitize_name` lower-cases, replaces each *space* character with
a hyphen, deletes every remaining character outside `[a-z0-9-]` with the
exception of embedded newlines — `sed` is line-based, so newlines
survive as line separators (`"a\nb" ↦ "a\nb"`), with trailing newlines
stripped by the command substitution; an option-like argument such as
`-n` yields the empty string; empty input yields the empty string; and
every output character is in `[a-z0-9-]` or is a newline. -/
theorem c8_sanitize_name_amended :
    (∀ s : String, echoOptionLike s = false →
        sanitize_name s =
          String.mk (stripTrailingNewlines (sanitizeCharwise s.toList))) ∧
      sanitize_name "" = "" ∧
      sanitize_name "a\nb" = "a\nb" ∧
      sanitize_name "-n" = "" ∧
      (∀ s : String, ∀ c ∈ (sanitize_name s).toList,
        allowedChar c = true ∨ c = '\n') := by
  refine ⟨fun s hs => ?_, by decide, by decide, by decide, fun s c hc => ?_⟩
  · unfold sanitize_name
    rw [hs]
    simp only [Bool.false_eq_true, if_false]
    rw [sanitize_pipeline_eq_charwise, sanitizeCharwise_append,
      show sanitizeCharwise ['\n'] = ['\n'] from by decide,
      stripTrailingNewlines_append_newline]
  · unfold sanitize_name at hc
    by_cases ho : echoOptionLike s
    · rw [if_pos ho] at hc
      cases hc
    · rw [if_neg ho] at hc
      exact mem_sedFilterStream (mem_stripTrailingNewlines hc)

/-- C8 (witness): the characterization applied at a concrete mixed
input (underscore deleted, space hyphenated, upper-case lowered), plus
the empty-input case taken from the theorem itself. -/
theorem c8_sanitize_name_amended_witness :
    (echoOptionLike "Test_Plugin 2" = false ∧
      sanitize_name "Test_Plugin 2" =
        String.mk (stripTrailingNewlines (sanitizeCharwise "Test_Plugin 2".toList))) ∧
      sanitize_name "" = "" :=
  ⟨⟨by decide, c8_sanitize_name_amended.1 "Test_Plugin 2" (by decide)⟩,
    c8_sanitize_name_amended.2.1⟩

/-! ## Results for the missing-`pkgName` claim -/

/-- C2: for every manifest whose `pkgName` is missing or empty the
validation pass reports `valid = false` and its error list contains the
exact message `Missing required field: pkgName`, whatever the other
fields hold — every rule is evaluated on each call, nothing
short-circuits. -/
theorem c2_missing_pkg_name_flagged (m : ShellManifest) (h : m.pkgName = "") :
    scriptValid m = false ∧ "Missing required field: pkgName" ∈ scriptErrors m := by
  have hmem : "Missing required field: pkgName" ∈ scriptErrors m := by
    simp [scriptErrors, requiredFieldErrors, h]
  refine ⟨?_, hmem⟩
  cases hE : scriptErrors m with
  | nil => rw [hE] at hmem; cases hmem
  | cons a t => simp [scriptValid, hE]

/-- C2 (witness): a concrete manifest with empty `pkgName` and an
otherwise broken version field is reported invalid with the exact
missing-field message. -/
theorem c2_missing_pkg_name_flagged_witness :
    scriptValid ⟨"", "v1.0.0", 1, "demo", "executable", "bin/demo", true⟩ = false ∧
      "Missing required field: pkgName" ∈
        scriptErrors ⟨"", "v1.0.0", 1, "demo", "executable", "bin/demo", true⟩ :=
  c2_missing_pkg_name_flagged ⟨"", "v1.0.0", 1, "demo", "executable", "bin/demo", true⟩ rfl

/-! ## Results for the version-format claim -/

-- Shape analysis of `commandErrors`: every reported message is one of
-- the fixed texts or carries an `Invalid command ...` prefix.
theorem commandErrors_shapes (m : ShellManifest) {e : String}
    (he : e ∈ commandErrors m) :
    e = "Missing or empty 'cmds' array - at least one command required" ∨
      e = "First command missing 'name' field" ∨
      e = "First command missing 'type' field" ∨
      e = "Command type 'executable' requires 'executable' field" ∨
      (∃ s, e = "Invalid command name: " ++ s) ∨
      (∃ s, e = "Invalid command type: " ++ s) := by
  unfold commandErrors at he
  split_ifs at he <;> simp_all <;> aesop

-- The version-format message never arises from the commands section:
-- its prefix differs from every shape `commandErrors` can produce.
theorem invalid_version_not_in_commandErrors (m : ShellManifest) (v : String) :
    ("Invalid version format: " ++ v) ∉ commandErrors m := by
  intro he
  rcases commandErrors_shapes m he with h | h | h | h | ⟨s, h⟩ | ⟨s, h⟩
  · exact str_append_ne_fixed "Invalid version format: "
      "Missing or empty 'cmds' array - at least one command required"
      (i := 0) (a := 'I') (b := 'M') (by decide) (by decide) (by decide) v h
  · exact str_append_ne_fixed "Invalid version format: "
      "First command missing 'name' field"
      (i := 0) (a := 'I') (b := 'F') (by decide) (by decide) (by decide) v h
  · exact str_append_ne_fixed "Invalid version format: "
      "First command missing 'type' field"
      (i := 0) (a := 'I') (b := 'F') (by decide) (by decide) (by decide) v h
  · exact str_append_ne_fixed "Invalid version format: "
      "Command type 'executable' requires 'executable' field"
      (i := 0) (a := 'I') (b := 'C') (by decide) (by decide) (by decide) v h
  · exact str_append_ne_append "Invalid version format: " "Invalid command name: "
      (i := 8) (a := 'v') (b := 'c') (by decide) (by decide) (by decide) v s h
  · exact str_append_ne_append "Invalid version format: " "Invalid command type: "
      (i := 8) (a := 'v') (b := 'c') (by decide) (by decide) (by decide) v s h

/-- C3: for every manifest with a present (nonempty) version string, the
validation pass emits `Invalid version format: <value>` exactly when the
value fails the semantic-version grammar
`^\d+\.\d+\.\d+(-[a-zA-Z0-9._-]+)?(\+[a-zA-Z0-9._-]+)?$` of
`validate_semver` — no leading `v` is accepted. -/
theorem c3_semver_flag_iff (m : ShellManifest) (hv : m.version ≠ "") :
    ("Invalid version format: " ++ m.version) ∈ scriptErrors m ↔
      validate_semver m.version = false := by
  constructor
  · intro hmem
    by_contra hsem
    rw [Bool.not_eq_false] at hsem
    rw [scriptErrors, List.mem_append] at hmem
    rcases hmem with hmem | hmem
    · rw [requiredFieldErrors, if_neg hv, if_pos hsem] at hmem
      rw [List.append_nil, List.mem_ite_nil_right, List.mem_singleton] at hmem
      exact str_append_ne_fixed "Invalid version format: "
        "Missing required field: pkgName"
        (i := 0) (a := 'I') (b := 'M') (by decide) (by decide) (by decide)
        m.version hmem.2
    · exact invalid_version_not_in_commandErrors m m.version hmem
  · intro hsem
    rw [scriptErrors, List.mem_append]
    left
    rw [requiredFieldErrors, if_neg hv, hsem]
    simp

/-- C3 (witness): a concrete manifest carrying the leading-`v` version
`v1.0.0` is flagged with the invalid-format message, because
`validate_semver "v1.0.0"` is false. -/
theorem c3_semver_flag_iff_witness :
    ("Invalid version format: " ++ "v1.0.0" ∈
        scriptErrors ⟨"demo", "v1.0.0", 1, "demo", "executable", "bin/demo", true⟩ ↔
      validate_semver "v1.0.0" = false) ∧
      validate_semver "v1.0.0" = false ∧ validate_semver "1.0.0" = true ∧
      validate_semver "1.0.0-beta.1" = true :=
  ⟨c3_semver_flag_iff ⟨"demo", "v1.0.0", 1, "demo", "executable", "bin/demo", true⟩
      (by decide),
    by decide, by decide, by decide⟩

/-! ## Results for the command-type enum claim -/

/-- C4: the validation script's `type` enum is `{executable, group,
system}`, not the claimed (and typed, in `types/manifest.d.ts`)
`{executable, alias, group}`: a first command of type `alias` is
rejected with `Invalid command type: alias`, while the out-of-claim
value `system` is accepted. -/
theorem c4_command_type_enum_bug :
    scriptValid ⟨"demo", "1.0.0", 1, "demo", "alias", "", true⟩ = false ∧
      "Invalid command type: alias" ∈
        scriptErrors ⟨"demo", "1.0.0", 1, "demo", "alias", "", true⟩ ∧
      scriptValid ⟨"demo", "1.0.0", 1, "demo", "system", "", true⟩ = true := by
  refine ⟨by decide, by decide, by decide⟩

/-! ## Results for the failing-existence-check claim -/

/-- C10: when the `oras manifest fetch` under `checkOCITagExists`
throws, the `catch` block returns `false` instead of propagating, so the
publisher's skip decision treats the failed check exactly like a
missing tag and proceeds to push: the skip happens only on exit code
zero. -/
theorem c10_check_failure_means_push :
    checkOCITagExists .throws = false ∧ ociSkipsPackage .throws = false ∧
      (∀ code : Int, checkOCITagExists (.exits code) = (code == 0)) :=
  ⟨rfl, rfl, fun _ => rfl⟩

/-- C10 (witness): a nonzero exit code reports the tag as absent. -/
theorem c10_check_failure_means_push_witness :
    checkOCITagExists (.exits 3) = ((3 : Int) == 0) :=
  c10_check_failure_means_push.2.2 3

/-! ## Results for the packaging-run claims -/

-- A run over all-successful directories returns every artifact in
-- discovery order.
theorem packageLoop_all_ok (dirs : List (String × Except String PackagedPlugin))
    (h : ∀ x ∈ dirs, x.2.isOk = true) :
    packageLoop dirs = .ok (dirs.filterMap (fun x => x.2.toOption)) := by
  induction dirs with
  | nil => rfl
  | cons x rest ih =>
    obtain ⟨d, exc⟩ := x
    cases exc with
    | error e => exact absurd (h (d, .error e) (List.mem_cons_self _ _)) (fun hcon => Bool.noConfusion hcon)
    | ok p =>
      have := ih (fun y hy => h y (List.mem_cons_of_mem _ hy))
      simp [packageLoop, this, List.filterMap_cons, Except.toOption, Except.map]

/-- C5 (counterexample): a packaging run over the directory list
`[bad, good]`, where `bad` fails manifest reading with error `boom` and
`good` would package fine, aborts with exactly the first error: the run
result is `.error "boom"` — not an aggregate error — and the loop body
never runs for `good`. -/
theorem c5_packaging_abort_counterexample :
    packagePluginsRun "plugins"
        [("bad", .error "boom"),
         ("good", .ok ⟨"good", "1.0.0", "out/good-1.0.0.zip", "feed", 7⟩)] =
      .error "boom" ∧
      packageLoopProcessed
          [("bad", .error "boom"),
           ("good", .ok ⟨"good", "1.0.0", "out/good-1.0.0.zip", "feed", 7⟩)] =
        ["bad"] ∧
      "good" ∉ packageLoopProcessed
          [("bad", .error "boom"),
           ("good", .ok ⟨"good", "1.0.0", "out/good-1.0.0.zip", "feed", 7⟩)] :=
  ⟨rfl, rfl, by decide⟩

/-- C5 (amended): packaging is fail-fast, not partial-failure-tolerant:
when one directory's manifest read or archive build fails, `packagePlugins`
rethrows that first error, the directories after it are never processed,
and the error is the single failing directory's error rather than an
aggregate. -/
theorem c5_packaging_fail_fast (d : String)
    (pre : List (String × Except String PackagedPlugin)) (dn e : String)
    (post : List (String × Except String PackagedPlugin))
    (hpre : ∀ x ∈ pre, x.2.isOk = true) :
    packagePluginsRun d (pre ++ (dn, .error e) :: post) = .error e ∧
      packageLoopProcessed (pre ++ (dn, .error e) :: post) =
        pre.map Prod.fst ++ [dn] := by
  have hloop : ∀ pre2 : List (String × Except String PackagedPlugin),
      (∀ x ∈ pre2, x.2.isOk = true) →
      packageLoop (pre2 ++ (dn, Except.error e) :: post) = .error e ∧
        packageLoopProcessed (pre2 ++ (dn, Except.error e) :: post) =
          pre2.map Prod.fst ++ [dn] := by
    intro pre2 hp
    induction pre2 with
    | nil => exact ⟨rfl, rfl⟩
    | cons x rest ih =>
      obtain ⟨d0, exc⟩ := x
      cases exc with
      | error e0 =>
        exact absurd (hp (d0, .error e0) (List.mem_cons_self _ _)) (fun hcon => Bool.noConfusion hcon)
      | ok p =>
        have hrest := ih (fun y hy => hp y (List.mem_cons_of_mem _ hy))
        refine ⟨?_, ?_⟩
        · simp [packageLoop, hrest.1, Except.map]
        · simp [packageLoopProcessed, hrest.2]
  have hne : (pre ++ (dn, Except.error e) :: post).isEmpty = false := by
    cases pre <;> rfl
  have h := hloop pre hpre
  refine ⟨?_, h.2⟩
  rw [packagePluginsRun, hne]
  · exact h.1

/-- C5 (witness): a concrete fail-fast run — one successful directory,
then a failing one, then a directory that is never reached. -/
theorem c5_packaging_fail_fast_witness :
    packagePluginsRun "plugins"
        [("ok1", .ok ⟨"ok1", "1.0.0", "out/ok1-1.0.0.zip", "aa", 5⟩),
         ("bad", .error "boom"),
         ("later", .ok ⟨"later", "2.0.0", "out/later-2.0.0.zip", "bb", 6⟩)] =
      .error "boom" ∧
      packageLoopProcessed
          [("ok1", .ok ⟨"ok1", "1.0.0", "out/ok1-1.0.0.zip", "aa", 5⟩),
           ("bad", .error "boom"),
           ("later", .ok ⟨"later", "2.0.0", "out/later-2.0.0.zip", "bb", 6⟩)] =
        ["ok1", "bad"] :=
  c5_packaging_fail_fast "plugins"
    [("ok1", .ok ⟨"ok1", "1.0.0", "out/ok1-1.0.0.zip", "aa", 5⟩)] "bad" "boom"
    [("later", .ok ⟨"later", "2.0.0", "out/later-2.0.0.zip", "bb", 6⟩)]
    (by intro x hx; rw [List.mem_singleton] at hx; subst hx; rfl)

/-- C6 (counterexample): discovering zero plugin directories is an error
of `packagePlugins` itself — the code throws
`No plugins found in <pluginsDirectory>` instead of returning the empty
artifact list. -/
theorem c6_empty_discovery_counterexample :
    packagePluginsRun "plugins" [] = .error "No plugins found in plugins" ∧
      packagePluginsRun "plugins" [] ≠ .ok [] := by
  refine ⟨rfl, fun h => Except.noConfusion h⟩

/-- C6 (amended): `packagePlugins` throws `No plugins found in <dir>`
when zero plugin directories are discovered; when at least one directory
is discovered and all of them package successfully, it returns the
complete artifact list in discovery order. -/
theorem c6_empty_is_error_nonempty_complete :
    (∀ d : String, packagePluginsRun d [] = .error ("No plugins found in " ++ d)) ∧
      (∀ (d : String) (dirs : List (String × Except String PackagedPlugin)),
        dirs ≠ [] → (∀ x ∈ dirs, x.2.isOk = true) →
        packagePluginsRun d dirs = .ok (dirs.filterMap (fun x => x.2.toOption))) := by
  refine ⟨fun d => rfl, fun d dirs hne hok => ?_⟩
  have hemp : dirs.isEmpty = false := by
    cases dirs with
    | nil => exact absurd rfl hne
    | cons x rest => rfl
  rw [packagePluginsRun, hemp]
  · exact packageLoop_all_ok dirs hok

/-- C6 (witness): one successfully packaged directory yields exactly its
artifact. -/
theorem c6_empty_is_error_nonempty_complete_witness :
    packagePluginsRun "plugins"
        [("demo", .ok ⟨"demo", "1.0.0", "out/demo-1.0.0.zip", "c0ffee", 42⟩)] =
      .ok [⟨"demo", "1.0.0", "out/demo-1.0.0.zip", "c0ffee", 42⟩] :=
  c6_empty_is_error_nonempty_complete.2 "plugins"
    [("demo", .ok ⟨"demo", "1.0.0", "out/demo-1.0.0.zip", "c0ffee", 42⟩)]
    (List.cons_ne_nil _ _)
    (by intro x hx; rw [List.mem_singleton] at hx; subst hx; rfl)

/-! ## Results for the publish-idempotence claim -/

-- The OCI loop never removes a published pair from the registry state.
theorem ociLoop_mono (registry : String) (pkgs : List OCIPkg) :
    ∀ (st : OCIState) (pr : String × String), pr ∈ st →
      pr ∈ (ociLoop registry st pkgs).1 := by
  induction pkgs with
  | nil => intro st pr h; exact h
  | cons p rest ih =>
    intro st pr h
    simp only [ociLoop]
    by_cases hex : ociTagExists st (registry ++ "/" ++ sanitize_name p.pkgName) p.version
    · rw [if_pos hex]
      exact ih st pr h
    · rw [if_neg hex]
      exact ih _ pr (List.mem_cons_of_mem _ (List.mem_cons_of_mem _ h))

-- After a run, every package's version tag is present in the registry:
-- a skipped package was already there, a pushed one was added.
theorem ociLoop_covers (registry : String) (pkgs : List OCIPkg) :
    ∀ (st : OCIState), ∀ p ∈ pkgs,
      (registry ++ "/" ++ sanitize_name p.pkgName, p.version) ∈
        (ociLoop registry st pkgs).1 := by
  induction pkgs with
  | nil => intro st p h; cases h
  | cons q rest ih =>
    intro st p h
    simp only [ociLoop]
    by_cases hex : ociTagExists st (registry ++ "/" ++ sanitize_name q.pkgName) q.version
    · rw [if_pos hex]
      rcases List.mem_cons.mp h with rfl | hmem
      · exact ociLoop_mono registry rest st _ (of_decide_eq_true hex)
      · exact ih st p hmem
    · rw [if_neg hex]
      rcases List.mem_cons.mp h with rfl | hmem
      · exact ociLoop_mono registry rest _ _
          (List.mem_cons_of_mem _ (List.mem_cons_self _ _))
      · exact ih _ p hmem

-- A run in which every package's tag already exists only skips: the
-- state is unchanged, nothing is pushed, everything is counted skipped.
theorem ociLoop_all_skip (registry : String) (pkgs : List OCIPkg) :
    ∀ (st : OCIState),
      (∀ p ∈ pkgs,
        ociTagExists st (registry ++ "/" ++ sanitize_name p.pkgName) p.version = true) →
      ociLoop registry st pkgs = (st, 0, pkgs.length) := by
  induction pkgs with
  | nil => intro st _; rfl
  | cons p rest ih =>
    intro st h
    simp only [ociLoop]
    rw [if_pos (h p (List.mem_cons_self _ _)),
      ih st (fun q hq => h q (List.mem_cons_of_mem _ hq))]
    rfl

-- With force off the release loop never drops a tag from the state.
theorem releaseLoop_mono (pkgs : List RelPkg) :
    ∀ (tags : List String) (t : String), t ∈ tags →
      t ∈ (releaseLoop false tags pkgs).1 := by
  induction pkgs with
  | nil => intro tags t h; exact h
  | cons p rest ih =>
    intro tags t h
    simp only [releaseLoop]
    by_cases hex : (p.name ++ "-" ++ p.version) ∈ tags
    · rw [if_pos hex, if_neg (by simp)]
      exact ih tags t h
    · rw [if_neg hex]
      exact ih _ t (List.mem_cons_of_mem _ h)

-- After a run with force off, every package's tag exists.
theorem releaseLoop_covers (pkgs : List RelPkg) :
    ∀ (tags : List String), ∀ p ∈ pkgs,
      (p.name ++ "-" ++ p.version) ∈ (releaseLoop false tags pkgs).1 := by
  induction pkgs with
  | nil => intro tags p h; cases h
  | cons q rest ih =>
    intro tags p h
    simp only [releaseLoop]
    by_cases hex : (q.name ++ "-" ++ q.version) ∈ tags
    · rw [if_pos hex, if_neg (by simp)]
      rcases List.mem_cons.mp h with rfl | hmem
      · exact releaseLoop_mono rest tags _ hex
      · exact ih tags p hmem
    · rw [if_neg hex]
      rcases List.mem_cons.mp h with rfl | hmem
      · exact releaseLoop_mono rest _ _ (List.mem_cons_self _ _)
      · exact ih _ p hmem

-- A second run over already-tagged packages with force off creates and
-- deletes nothing and skips every package in order.
theorem releaseLoop_all_skip (pkgs : List RelPkg) :
    ∀ (tags : List String),
      (∀ p ∈ pkgs, (p.name ++ "-" ++ p.version) ∈ tags) →
      releaseLoop false tags pkgs =
        (tags, [], pkgs.map (fun p => p.name ++ "-" ++ p.version), []) := by
  induction pkgs with
  | nil => intro tags _; rfl
  | cons p rest ih =>
    intro tags h
    simp only [releaseLoop]
    rw [if_pos (h p (List.mem_cons_self _ _)), if_neg (by simp),
      ih tags (fun q hq => h q (List.mem_cons_of_mem _ hq))]
    rfl

/-- C7: publishing is idempotent with force off — running the OCI push
protocol a second time over the same package set against the state the
first run produced pushes nothing (`pushedCount = 0`), counts every
package as skipped, leaves the registry state unchanged, and the
only-skips run is a success of `pushToOCI`, not an error; likewise the
GitHub-release protocol re-run creates and deletes nothing and skips
every tag. -/
theorem c7_publish_idempotent (registry : String) (st : OCIState)
    (pkgs : List OCIPkg) (tags : List String) (rel : List RelPkg)
    (hne : pkgs ≠ []) :
    (ociLoop registry (ociLoop registry st pkgs).1 pkgs =
        ((ociLoop registry st pkgs).1, 0, pkgs.length) ∧
      pushToOCIRun registry (ociLoop registry st pkgs).1 pkgs =
        .ok ((ociLoop registry st pkgs).1, 0, pkgs.length)) ∧
      releaseLoop false (releaseLoop false tags rel).1 rel =
        ((releaseLoop false tags rel).1, [],
          rel.map (fun p => p.name ++ "-" ++ p.version), []) := by
  have hskip : ociLoop registry (ociLoop registry st pkgs).1 pkgs =
      ((ociLoop registry st pkgs).1, 0, pkgs.length) :=
    ociLoop_all_skip registry pkgs _ (fun p hp => by
      rw [ociTagExists]
      exact decide_eq_true (ociLoop_covers registry pkgs st p hp))
  refine ⟨⟨hskip, ?_⟩, ?_⟩
  · have hemp : pkgs.isEmpty = false := by
      cases pkgs with
      | nil => exact absurd rfl hne
      | cons q r => rfl
    rw [pushToOCIRun, hemp]
    simp only [Bool.false_eq_true, if_false, hskip]
    rw [if_neg (fun hz => hne (List.length_eq_zero.mp hz.2))]
  · exact releaseLoop_all_skip rel _
      (fun p hp => releaseLoop_covers rel tags p hp)

/-- C7 (witness): one concrete package re-pushed against the state of
its first publication is skipped by both protocols. -/
theorem c7_publish_idempotent_witness :
    (ociLoop "ghcr.io/acme" (ociLoop "ghcr.io/acme" [] [⟨"Demo", "1.0.0"⟩]).1
          [⟨"Demo", "1.0.0"⟩] =
        ((ociLoop "ghcr.io/acme" [] [⟨"Demo", "1.0.0"⟩]).1, 0, 1) ∧
      pushToOCIRun "ghcr.io/acme" (ociLoop "ghcr.io/acme" [] [⟨"Demo", "1.0.0"⟩]).1
          [⟨"Demo", "1.0.0"⟩] =
        .ok ((ociLoop "ghcr.io/acme" [] [⟨"Demo", "1.0.0"⟩]).1, 0, 1)) ∧
      releaseLoop false (releaseLoop false [] [⟨"demo", "1.0.0"⟩]).1
          [⟨"demo", "1.0.0"⟩] =
        ((releaseLoop false [] [⟨"demo", "1.0.0"⟩]).1, [], ["demo-1.0.0"], []) :=
  c7_publish_idempotent "ghcr.io/acme" [] [⟨"Demo", "1.0.0"⟩] [] [⟨"demo", "1.0.0"⟩]
    (List.cons_ne_nil _ _)

/-! ## Results for the archive-name round-trip claim -/

-- Character-class disequality used by the round-trip argument.
theorem allowedChar_ne_dot {c : Char} (h : allowedChar c = true) : c ≠ '.' :=
  fun hc => absurd (hc ▸ h) (by decide)

-- A nonempty maximal digit run begins with a digit.
theorem head_digit_of_takeWhile {r : List Char}
    (h : (r.takeWhile isDigitChar).isEmpty = false) :
    isDigitChar (r.headD ' ') = true := by
  cases r with
  | nil => exact absurd h (by simp)
  | cons c t =>
    by_cases hc : isDigitChar c = true
    · exact hc
    · exfalso
      rw [List.takeWhile_cons, if_neg hc] at h
      simp at h

-- The regex shape `\d+\.\d+\.\d+.*` demanded by the archive parser is
-- implied by the full `validate_semver` match, component by component.
theorem semverDot2_versNumTail {l : List Char} (h : semverDot2 l = true) :
    versNumTail l = true := by
  cases l with
  | nil => exact absurd h (by simp [semverDot2])
  | cons c r2 =>
    simp only [semverDot2, Bool.and_eq_true, decide_eq_true_eq,
      Bool.not_eq_true', List.isEmpty_eq_false] at h
    obtain ⟨⟨hc, hne⟩, -⟩ := h
    simp only [versNumTail, Bool.and_eq_true, decide_eq_true_eq]
    refine ⟨hc, head_digit_of_takeWhile ?_⟩
    simp [List.isEmpty_eq_false, hne]

theorem semverDot1_versHeadTail {l : List Char} (h : semverDot1 l = true) :
    versHeadTail l = true := by
  cases l with
  | nil => exact absurd h (by simp [semverDot1])
  | cons c r1 =>
    simp only [semverDot1, Bool.and_eq_true, decide_eq_true_eq,
      Bool.not_eq_true', List.isEmpty_eq_false] at h
    obtain ⟨⟨hc, hne⟩, hd2⟩ := h
    simp only [versHeadTail, Bool.and_eq_true, decide_eq_true_eq]
    refine ⟨hc, ?_⟩
    unfold versMidTail
    rw [Bool.and_eq_true]
    refine ⟨by simp [List.isEmpty_eq_false, hne], semverDot2_versNumTail hd2⟩

theorem isVersionish_of_semver {v : String} (h : validate_semver v = true) :
    isVersionish v.toList = true := by
  unfold validate_semver at h
  rw [Bool.and_eq_true] at h
  unfold isVersionish
  rw [Bool.and_eq_true]
  exact ⟨h.1, semverDot1_versHeadTail h.2⟩

-- Consequence of `noHyphenVersionish`: no hyphen position inside the
-- version has a version-shaped suffix.
theorem noHyphenVersionish_drop {vs : List Char} :
    noHyphenVersionish vs = true →
    ∀ k : Nat, vs[k]? = some '-' → isVersionish (vs.drop (k + 1)) = false := by
  induction vs with
  | nil =>
    intro _ k hk
    rw [List.getElem?_nil] at hk
    cases hk
  | cons a t ih =>
    intro h k hk
    simp only [noHyphenVersionish, Bool.and_eq_true] at h
    obtain ⟨h1, h2⟩ := h
    cases k with
    | zero =>
      rw [List.getElem?_cons_zero] at hk
      have ha : a = '-' := Option.some.inj hk
      subst ha
      simp at h1
      simpa using h1
    | succ k2 =>
      rw [List.getElem?_cons_succ] at hk
      exact ih h2 k2 hk

-- `.tar.gz` starts with a dot, so it cannot match at a non-dot head.
theorem tarGz_not_prefix_ne_dot {c : Char} (l : List Char) (hc : c ≠ '.') :
    tarGzExt.isPrefixOf (c :: l) = false := by
  have hne : ('.' : Char) ≠ c := fun hh => hc hh.symm
  simp [tarGzExt, List.isPrefixOf, hne]

-- Prepending dot-free characters cannot create an early `.tar.gz`
-- occurrence.
theorem tarGzOccursEarly_append {p : List Char} (r : List Char)
    (hp : ∀ c ∈ p, c ≠ '.') :
    tarGzOccursEarly (p ++ r) = tarGzOccursEarly r := by
  induction p with
  | nil => rfl
  | cons c t ih =>
    rw [List.cons_append]
    simp only [tarGzOccursEarly]
    rw [List.cons_append, tarGz_not_prefix_ne_dot _ (hp c (List.mem_cons_self _ _)),
      Bool.false_or, ih (fun x hx => hp x (List.mem_cons_of_mem _ hx))]

-- When `.tar.gz` does not occur early, the first-occurrence removal
-- strips exactly the final extension.
theorem removeFirstSub_append {x : List Char}
    (hx : tarGzOccursEarly x = false) :
    removeFirstSub tarGzExt (x ++ tarGzExt) = x := by
  induction x with
  | nil => decide
  | cons c t ih =>
    simp only [tarGzOccursEarly, Bool.or_eq_false_iff] at hx
    obtain ⟨h1, h2⟩ := hx
    rw [List.cons_append] at h1
    show removeFirstSub tarGzExt ((c :: t) ++ tarGzExt) = c :: t
    rw [List.cons_append, removeFirstSub, h1]
    simp only [Bool.false_eq_true, if_false]
    exact congrArg (c :: ·) (ih h2)

-- `findLargest` returns the greatest index satisfying the predicate.
theorem findLargest_spec {p : Nat → Bool} {j : Nat} :
    ∀ {k : Nat}, j < k → p j = true → (∀ i, j < i → i < k → p i = false) →
      findLargest p k = some j := by
  intro k
  induction k with
  | zero => intro h; exact absurd h (Nat.not_lt_zero j)
  | succ k ih =>
    intro hjk hj hup
    rw [findLargest]
    by_cases hjk2 : j = k
    · subst hjk2
      rw [hj]
      rfl
    · have hlt : j < k := by omega
      rw [hup k hlt (Nat.lt_succ_self k)]
      simp only [Bool.false_eq_true, if_false]
      exact ih hlt hj (fun i h1 h2 => hup i h1 (by omega))

-- The junction between name and version is a valid split position.
theorem archSplit_at_junction {nm vs : List Char} (hn : nm ≠ [])
    (hv : isVersionish vs = true) :
    archSplitAt (nm ++ '-' :: vs) nm.length = true := by
  unfold archSplitAt
  have h1 : 1 ≤ nm.length := Nat.succ_le_of_lt (List.length_pos.mpr hn)
  have h2 : (nm ++ '-' :: vs).getD nm.length ' ' = '-' := by
    rw [List.getD_eq_getElem?_getD, List.getElem?_append_right (le_refl _)]
    simp
  have h3 : (nm ++ '-' :: vs).drop (nm.length + 1) = vs := by
    rw [show nm ++ '-' :: vs = (nm ++ ['-']) ++ vs by simp,
      show nm.length + 1 = (nm ++ ['-']).length by simp]
    exact List.drop_left _ _
  rw [h2, h3, hv]
  simp [h1]

-- No position strictly right of the junction is a split position: a
-- non-hyphen character fails the hyphen test, and a hyphen inside the
-- version has no version-shaped suffix by hypothesis.
theorem archSplit_beyond_junction {nm vs : List Char}
    (hnh : noHyphenVersionish vs = true) :
    ∀ i, nm.length < i → archSplitAt (nm ++ '-' :: vs) i = false := by
  intro i hi
  unfold archSplitAt
  cases hc : vs[i - nm.length - 1]? with
  | none =>
    have hx : (nm ++ '-' :: vs).getD i ' ' = ' ' := by
      rw [List.getD_eq_getElem?_getD, List.getElem?_append_right (Nat.le_of_lt hi),
        show i - nm.length = (i - nm.length - 1) + 1 by omega,
        List.getElem?_cons_succ, hc]
      rfl
    rw [hx]
    simp
  | some c =>
    have hx : (nm ++ '-' :: vs).getD i ' ' = c := by
      rw [List.getD_eq_getElem?_getD, List.getElem?_append_right (Nat.le_of_lt hi),
        show i - nm.length = (i - nm.length - 1) + 1 by omega,
        List.getElem?_cons_succ, hc]
      rfl
    rw [hx]
    by_cases hcm : c = '-'
    · subst hcm
      have hdrop : (nm ++ '-' :: vs).drop (i + 1) =
          vs.drop ((i - nm.length - 1) + 1) := by
        rw [show nm ++ '-' :: vs = (nm ++ ['-']) ++ vs by simp,
          show i + 1 = (nm ++ ['-']).length + ((i - nm.length - 1) + 1) by
            simp
            omega]
        exact List.drop_append _
      rw [hdrop, noHyphenVersionish_drop hnh (i - nm.length - 1) hc]
      simp
    · have hbe : (c == '-') = false := beq_eq_false_iff_ne.mpr hcm
      rw [hbe]
      simp

/-- C1 (counterexample): the round-trip fails inside the claim's own
domain on three counts.  For `zip` the parser never strips the
extension: `demo`, `1.0.0` builds `demo-1.0.0.zip`, which parses back
with version `1.0.0.zip`.  For `tar.gz`, the grammar-valid version
`1.0.0-2.0.0` mis-splits: the greedy `(.+)-` grabs `n-1.0.0`, returning
name `n-1.0.0`, version `2.0.0`.  And the grammar-valid version
`1.0.0-x.tar.gzq` contains `.tar.gz` before the extension, so the
first-occurrence strip deletes the wrong substring, returning version
`1.0.0-xq.tar.gz`. -/
theorem c1_roundtrip_counterexample :
    (parsePluginArchiveName (buildArchiveFilename "demo" "1.0.0" .zip) =
        some ("demo", "1.0.0.zip") ∧
      parsePluginArchiveName (buildArchiveFilename "demo" "1.0.0" .zip) ≠
        some ("demo", "1.0.0")) ∧
      (validate_semver "1.0.0-2.0.0" = true ∧
        parsePluginArchiveName (buildArchiveFilename "n" "1.0.0-2.0.0" .targz) =
          some ("n-1.0.0", "2.0.0")) ∧
      (validate_semver "1.0.0-x.tar.gzq" = true ∧
        parsePluginArchiveName
            (buildArchiveFilename "n" "1.0.0-x.tar.gzq" .targz) =
          some ("n", "1.0.0-xq.tar.gz")) := by
  exact ⟨⟨by decide, by decide⟩, ⟨by decide, by decide⟩, ⟨by decide, by decide⟩⟩

/-- C1 (amended): for `tar.gz` archives, every nonempty sanitized name
`n` and every version `v` matching the semver grammar round-trips —
`parseArchiveName(buildArchiveFilename(n, v)) = {name: n, version: v}`
— provided `v` avoids the two failure modes the counterexample
exhibits: no hyphen in `v` is followed by a `\d+\.\d+\.\d+` segment
(which would shift the greedy split), and `.tar.gz` does not occur in
`v` before the final extension (which the first-occurrence strip would
remove).  Hyphen-free pre-release and build parts such as
`1.0.0-beta.1` satisfy both and round-trip.  For `zip` the extension is
never stripped and the round-trip fails. -/
theorem c1_roundtrip_targz (n v : String) (hn : n ≠ "")
    (hchars : ∀ c ∈ n.toList, allowedChar c = true)
    (hsem : validate_semver v = true)
    (hnh : noHyphenVersionish v.toList = true)
    (hng : tarGzOccursEarly v.toList = false) :
    parsePluginArchiveName (buildArchiveFilename n v .targz) = some (n, v) := by
  have hdata : (buildArchiveFilename n v .targz).toList =
      (n.toList ++ '-' :: v.toList) ++ tarGzExt := by
    show (n ++ "-" ++ v ++ ".tar.gz").data = _
    simp only [String.data_append,
      show ("-" : String).data = ['-'] from rfl,
      show (".tar.gz" : String).data = tarGzExt from rfl]
    simp [String.toList, tarGzExt]
  have hocc : tarGzOccursEarly (n.toList ++ '-' :: v.toList) = false := by
    rw [tarGzOccursEarly_append _ (fun c hc => allowedChar_ne_dot (hchars c hc))]
    simp only [tarGzOccursEarly]
    rw [List.cons_append, tarGz_not_prefix_ne_dot _ (by decide), Bool.false_or]
    exact hng
  have hnl : n.toList ≠ [] := fun hcon => hn (congrArg String.mk hcon)
  have hb : removeFirstSub tarGzExt (buildArchiveFilename n v .targz).toList =
      n.toList ++ '-' :: v.toList := by
    rw [hdata]
    exact removeFirstSub_append hocc
  have hfind : findLargest (archSplitAt (n.toList ++ '-' :: v.toList))
      (n.toList ++ '-' :: v.toList).length = some n.toList.length := by
    apply findLargest_spec
    · simp
    · exact archSplit_at_junction hnl (isVersionish_of_semver hsem)
    · intro i hgt _
      exact archSplit_beyond_junction hnh i hgt
  have htake : (n.toList ++ '-' :: v.toList).take n.toList.length = n.toList :=
    List.take_left _ _
  have hdrop : (n.toList ++ '-' :: v.toList).drop (n.toList.length + 1) =
      v.toList := by
    rw [show n.toList ++ '-' :: v.toList = (n.toList ++ ['-']) ++ v.toList by simp,
      show n.toList.length + 1 = (n.toList ++ ['-']).length by simp]
    exact List.drop_left _ _
  simp only [parsePluginArchiveName, hb, hfind, htake, hdrop]
  rfl

/-- C1 (witness): the concrete `tar.gz` round-trips
`demo-1.0.0-beta.1.tar.gz ↦ (demo, 1.0.0-beta.1)` — a hyphen-free
pre-release — and `demo-1.0.0.tar.gz ↦ (demo, 1.0.0)`. -/
theorem c1_roundtrip_targz_witness :
    parsePluginArchiveName (buildArchiveFilename "demo" "1.0.0-beta.1" .targz) =
        some ("demo", "1.0.0-beta.1") ∧
      parsePluginArchiveName (buildArchiveFilename "demo" "1.0.0" .targz) =
        some ("demo", "1.0.0") :=
  ⟨c1_roundtrip_targz "demo" "1.0.0-beta.1" (by decide) (by decide) (by decide)
      (by decide) (by decide),
    c1_roundtrip_targz "demo" "1.0.0" (by decide) (by decide) (by decide)
      (by decide) (by decide)⟩


/-! ## Results for the documentation-retention claim -/

-- The order keys are injective, so distinct versions have distinct
-- keys and the descending order is strict between different versions.
theorem preId_key_inj : Function.Injective PreId.key := by
  intro a b h
  cases a with
  | num n =>
    cases b with
    | num m => exact congrArg PreId.num (Sum.inl.inj (toLex.injective h))
    | str s => exact absurd (toLex.injective h) (by simp)
  | str s =>
    cases b with
    | num m => exact absurd (toLex.injective h) (by simp)
    | str t => exact congrArg PreId.str (Sum.inr.inj (toLex.injective h))

theorem preKey_inj : Function.Injective preKey := by
  intro l1 l2 h
  cases l1 with
  | nil =>
    cases l2 with
    | nil => rfl
    | cons b u => exact absurd (congrArg Prod.fst (toLex.injective h)) (by simp [preKey])
  | cons a t =>
    cases l2 with
    | nil => exact absurd (congrArg Prod.fst (toLex.injective h)) (by simp [preKey])
    | cons b u =>
      have h2 := congrArg Prod.snd (toLex.injective h)
      exact List.map_injective_iff.mpr preId_key_inj h2

theorem semver_key_inj : Function.Injective SemVer.key := by
  intro a b h
  obtain ⟨amaj, amin, apat, apre⟩ := a
  obtain ⟨bmaj, bmin, bpat, bpre⟩ := b
  simp only [SemVer.key] at h
  have h0 := toLex.injective h
  rw [Prod.mk.injEq] at h0
  obtain ⟨h1, h0⟩ := h0
  have h0 := toLex.injective h0
  rw [Prod.mk.injEq] at h0
  obtain ⟨h2, h0⟩ := h0
  have h0 := toLex.injective h0
  rw [Prod.mk.injEq] at h0
  obtain ⟨h3, h0⟩ := h0
  have h4 := preKey_inj h0
  simp_all

-- Version-index items: the listed versions are the input versions, and
-- only the head is badged latest.
theorem versionIndexItems_fst (v : List SemVer) :
    (versionIndexItems v).map Prod.fst = v := by
  simp [versionIndexItems, List.map_map, Function.comp_def, List.enum_map_snd]

theorem enumFrom_items (t : List SemVer) :
    ∀ n : Nat, (List.enumFrom (n + 1) t).map (fun p => (p.2, p.1 == 0)) =
      t.map (fun v => (v, false)) := by
  induction t with
  | nil => intro n; rfl
  | cons a u ih =>
    intro n
    simp only [List.enumFrom, List.map_cons, ih (n + 1), List.cons.injEq]
    constructor
    · simp
    · trivial

theorem versionIndexItems_cons (m : SemVer) (t : List SemVer) :
    versionIndexItems (m :: t) = (m, true) :: t.map (fun v => (v, false)) := by
  simp only [versionIndexItems, List.enum_cons, List.map_cons, enumFrom_items t 0]
  rfl

/-- C9: documentation retention — for a plugin with distinct published
versions, `N = l.length`, and a configured keep-count `K` with
`0 < K < N`, the sorted-then-truncated list retains exactly `K`
versions, in descending semantic-version order, all drawn from the
published set; every dropped version is strictly older than every
retained one (the retained are the `K` newest); the generated
version-index page lists exactly the retained versions; and the single
version badged `Latest` is the head, the newest of all published
versions. -/
theorem c9_docs_retention (l : List SemVer) (K : Nat) (hnd : l.Nodup)
    (hK0 : 0 < K) (hKN : K < l.length) :
    (retainedVersions l K).length = K ∧
      List.Sorted semverGE (retainedVersions l K) ∧
      (∀ a ∈ retainedVersions l K, a ∈ l) ∧
      (∀ b ∈ l, b ∉ retainedVersions l K →
        ∀ a ∈ retainedVersions l K, semverLT b a) ∧
      (versionIndexItems (retainedVersions l K)).map Prod.fst =
        retainedVersions l K ∧
      (∃ m t, retainedVersions l K = m :: t ∧
        versionIndexItems (retainedVersions l K) =
          (m, true) :: t.map (fun v => (v, false)) ∧
        ∀ b ∈ l, b ≠ m → semverLT b m) := by
  have _ := hnd
  have hperm : List.Perm (sortVersionsDesc l) l := List.perm_insertionSort _ l
  have hsort : List.Sorted semverGE (sortVersionsDesc l) :=
    List.sorted_insertionSort _ l
  have hlen : (sortVersionsDesc l).length = l.length := hperm.length_eq
  have hret : retainedVersions l K = (sortVersionsDesc l).take K := by
    unfold retainedVersions cleanupOldVersions
    rw [if_pos (by rw [hlen]; exact hKN)]
  have hlen2 : (retainedVersions l K).length = K := by
    rw [hret, List.length_take]
    omega
  have hsub : List.Sublist (retainedVersions l K) (sortVersionsDesc l) :=
    hret ▸ List.take_sublist K _
  have hsorted2 : List.Sorted semverGE (retainedVersions l K) :=
    List.Pairwise.sublist hsub hsort
  have hmem : ∀ a ∈ retainedVersions l K, a ∈ l :=
    fun a ha => hperm.subset (hsub.subset ha)
  have hsplit : sortVersionsDesc l =
      retainedVersions l K ++ (sortVersionsDesc l).drop K := by
    rw [hret, List.take_append_drop]
  have hpairsplit : ∀ a ∈ retainedVersions l K,
      ∀ b ∈ (sortVersionsDesc l).drop K, semverGE a b := by
    have h := hsort
    rw [hsplit] at h
    exact fun a ha b hb => List.Pairwise.rel_of_mem_append h ha hb
  have hstrict : ∀ a b : SemVer, semverGE a b → a ≠ b → semverLT b a := by
    intro a b hge hne
    refine lt_of_le_of_ne hge ?_
    intro hkey
    exact hne (semver_key_inj hkey).symm
  have hnewest : ∀ b ∈ l, b ∉ retainedVersions l K →
      ∀ a ∈ retainedVersions l K, semverLT b a := by
    intro b hb hnb a ha
    have hbs : b ∈ sortVersionsDesc l := hperm.mem_iff.mpr hb
    rw [hsplit] at hbs
    have hbdrop : b ∈ (sortVersionsDesc l).drop K := by
      rcases List.mem_append.mp hbs with h | h
      · exact absurd h hnb
      · exact h
    refine hstrict a b (hpairsplit a ha b hbdrop) ?_
    intro hab
    exact hnb (hab ▸ ha)
  obtain ⟨m, t, hmt⟩ : ∃ m t, retainedVersions l K = m :: t := by
    cases hr : retainedVersions l K with
    | nil => rw [hr] at hlen2; simp at hlen2; omega
    | cons m t => exact ⟨m, t, rfl⟩
  obtain ⟨K2, rfl⟩ : ∃ K2, K = K2 + 1 := ⟨K - 1, by omega⟩
  have hcons : ∃ rest, sortVersionsDesc l = m :: rest := by
    cases hs : sortVersionsDesc l with
    | nil =>
      exfalso
      rw [hs] at hlen
      simp at hlen
      omega
    | cons x rest =>
      have h2 : retainedVersions l (K2 + 1) = x :: List.take K2 rest := by
        rw [hret, hs, List.take_succ_cons]
      rw [hmt] at h2
      injection h2 with h3 _
      exact ⟨rest, by rw [h3]⟩
  have hheadmax : ∀ b ∈ l, b ≠ m → semverLT b m := by
    obtain ⟨rest, hs⟩ := hcons
    intro b hb hne
    have hbs : b ∈ sortVersionsDesc l := hperm.mem_iff.mpr hb
    rw [hs] at hbs
    have hhead : ∀ y ∈ rest, semverGE m y := by
      have h := hsort
      rw [hs, List.sorted_cons] at h
      exact h.1
    rcases List.mem_cons.mp hbs with rfl | hbrest
    · exact absurd rfl hne
    · exact hstrict m b (hhead b hbrest) (fun hmb => hne hmb.symm)
  refine ⟨hlen2, hsorted2, hmem, hnewest, versionIndexItems_fst _,
    m, t, hmt, ?_, hheadmax⟩
  rw [hmt, versionIndexItems_cons]

/-- C9 (witness): three distinct versions `1.0.0`, `2.0.0-beta`,
`2.0.0` with keep-count `2`: two versions are retained, the dropped one
is older than both, the index lists exactly the retained two, and
`2.0.0` is the one badged latest. -/
theorem c9_docs_retention_witness :
    (retainedVersions [⟨1, 0, 0, []⟩, ⟨2, 0, 0, [PreId.str "beta"]⟩,
        ⟨2, 0, 0, []⟩] 2).length = 2 ∧
      List.Sorted semverGE (retainedVersions [⟨1, 0, 0, []⟩,
        ⟨2, 0, 0, [PreId.str "beta"]⟩, ⟨2, 0, 0, []⟩] 2) ∧
      (∀ a ∈ retainedVersions [⟨1, 0, 0, []⟩, ⟨2, 0, 0, [PreId.str "beta"]⟩,
          ⟨2, 0, 0, []⟩] 2,
        a ∈ [⟨1, 0, 0, []⟩, ⟨2, 0, 0, [PreId.str "beta"]⟩, ⟨2, 0, 0, []⟩]) ∧
      (∀ b ∈ [⟨1, 0, 0, []⟩, ⟨2, 0, 0, [PreId.str "beta"]⟩, ⟨2, 0, 0, []⟩],
        b ∉ retainedVersions [⟨1, 0, 0, []⟩, ⟨2, 0, 0, [PreId.str "beta"]⟩,
          ⟨2, 0, 0, []⟩] 2 →
        ∀ a ∈ retainedVersions [⟨1, 0, 0, []⟩, ⟨2, 0, 0, [PreId.str "beta"]⟩,
          ⟨2, 0, 0, []⟩] 2, semverLT b a) ∧
      (versionIndexItems (retainedVersions [⟨1, 0, 0, []⟩,
          ⟨2, 0, 0, [PreId.str "beta"]⟩, ⟨2, 0, 0, []⟩] 2)).map Prod.fst =
        retainedVersions [⟨1, 0, 0, []⟩, ⟨2, 0, 0, [PreId.str "beta"]⟩,
          ⟨2, 0, 0, []⟩] 2 ∧
      (∃ m t, retainedVersions [⟨1, 0, 0, []⟩, ⟨2, 0, 0, [PreId.str "beta"]⟩,
          ⟨2, 0, 0, []⟩] 2 = m :: t ∧
        versionIndexItems (retainedVersions [⟨1, 0, 0, []⟩,
          ⟨2, 0, 0, [PreId.str "beta"]⟩, ⟨2, 0, 0, []⟩] 2) =
          (m, true) :: t.map (fun v => (v, false)) ∧
        ∀ b ∈ [⟨1, 0, 0, []⟩, ⟨2, 0, 0, [PreId.str "beta"]⟩, ⟨2, 0, 0, []⟩],
          b ≠ m → semverLT b m) :=
  c9_docs_retention [⟨1, 0, 0, []⟩, ⟨2, 0, 0, [PreId.str "beta"]⟩, ⟨2, 0, 0, []⟩]
    2 (by decide) (by decide) (by decide)

end Cola
